import Mathlib

set_option linter.unusedVariables false

/-!
Shallow embedding of `rest_framework_bulk/drf2/mixins.py`.

The repository contains three Django-REST-framework mixins:
`BulkCreateModelMixin`, `BulkUpdateModelMixin` and `BulkDestroyModelMixin`.
The database is modelled as a list of records, the request payload as a
list of items, and the framework serializer (which is not part of this
repository) is modelled from the spec where its behaviour matters.
Strings are processed character by character (Python `split`, `strip`,
`isnumeric`, `int`) so every definition evaluates inside the kernel.
-/

namespace RFBulk

/-- A persisted model record: a primary key and one data field standing
for the rest of the row. -/
structure Rec where
  pk : Nat
  val : Nat
deriving DecidableEq, Repr

/-- A payload item: an optional identity (the `id` field used to match an
existing record) and one data field. -/
structure Item where
  id : Option Nat
  val : Nat
deriving DecidableEq, Repr

/-- The body of an HTTP response, as far as the mixins shape it. -/
inductive Body where
  | empty
  | recs (rs : List Rec)
  | errors (flags : List Bool)
  | errorMap (m : List (String × String))
deriving DecidableEq, Repr

/-! ### BulkDestroyModelMixin (`mixins.py` lines 150-200) -/

/-- Python `x.split(',')` on a character list: split on commas, keeping
empty tokens. -/
def splitCommaAux : List Char → List Char → List (List Char)
  | [], acc => [acc.reverse]
  | c :: cs, acc =>
    if c = ',' then acc.reverse :: splitCommaAux cs [] else splitCommaAux cs (c :: acc)

/-- Python `x.strip()`: drop leading and trailing whitespace. -/
def stripChars (s : List Char) : List Char :=
  ((s.dropWhile Char.isWhitespace).reverse.dropWhile Char.isWhitespace).reverse

/-- Python `x.isnumeric()` restricted to ASCII: nonempty and all digits. -/
def isnumericChars (s : List Char) : Bool :=
  !s.isEmpty && s.all Char.isDigit

/-- Python `int(x)` on a digit string. -/
def charsToNat (s : List Char) : Nat :=
  s.foldl (fun n c => n * 10 + (c.toNat - '0'.toNat)) 0

/-- Lines 177-178 of `mixins.py`: split the `idList` value on commas,
strip each token, drop empty tokens (`filter(None, ...)`), keep only
numeric tokens (`x.isnumeric()`) and convert them with `int`. -/
def parseIdList (v : String) : List Nat :=
  let del_list_strs :=
    ((splitCommaAux v.data []).map stripChars).filter (fun x => !x.isEmpty)
  del_list_strs.filterMap (fun x => if isnumericChars x then some (charsToNat x) else none)

/-- Deleting one object from the database removes the row with its
primary key (`serializer.delete_object(obj)`). -/
def delete_object (db : List Rec) (obj : Rec) : List Rec :=
  db.filter (fun r => r.pk != obj.pk)

/-- Result of `BulkDestroyModelMixin.destroy`: HTTP status, body, and the
database after the request. -/
structure DestroyResult where
  status : Nat
  body : Body
  db : List Rec
deriving DecidableEq, Repr

/-- Lines 169-198 of `mixins.py`. `fq` is the view's
`filter_queryset`, `db` the backing table, `idList` the query parameter.
The serializer built over the destroy set (instances together with their
own primary keys, `partial=True`) is modelled as always valid, which is
the invariant the source states at line 189. -/
def destroy (fq : Rec → Bool) (db : List Rec) (idList : Option String) : DestroyResult :=
  let qs := db.filter fq
  match idList with
  | none => ⟨400, Body.empty, db⟩
  | some v =>
    let del_list := parseIdList v
    let filtered := qs.filter (fun r => del_list.contains r.pk)
    let db := filtered.foldl delete_object db
    ⟨204, Body.empty, db⟩

/-- The parsing of `idList` as the spec describes it: split the value on
commas, strip whitespace from each token, discard empty tokens, silently
drop every non-numeric token, and convert the remaining numeric tokens
to integers. -/
def parseIdListSpec (v : String) : List Nat :=
  ((splitCommaAux v.data []).map stripChars).filterMap
    (fun tok =>
      if tok.isEmpty then none
      else if isnumericChars tok then some (charsToNat tok) else none)

/-! ### BulkCreateModelMixin (`mixins.py` lines 15-82) -/

/-- Observable events of a create request, in the order the mixin
performs them. `preSave i` / `postSave i` are the per-item `pre_save` /
`post_save` hooks on the i-th object; `preBulkSave` / `postBulkSave` are
the batch hooks; `saveDb` is `serializer.save`. -/
inductive Ev where
  | isValid (ok : Bool)
  | preSave (idx : Nat)
  | preBulkSave
  | saveDb
  | postBulkSave
  | postSave (idx : Nat)
deriving DecidableEq, Repr

/-- State threaded through `serializer.save`: the database, the next
fresh primary key, and the list of saved objects (`self.object`). -/
structure SaveSt where
  db : List Rec
  next : Nat
  objs : List Rec
deriving DecidableEq, Repr

/-- Result of `BulkCreateModelMixin.create`: HTTP status, body, database
after the request, the event trace, the `force_insert` flag passed to
`serializer.save` (none when save was not reached), and the instance
queryset the rebuilt serializer was given on the `post_allow_update`
path (none otherwise). -/
structure CreateResult where
  status : Nat
  body : Body
  db : List Rec
  trace : List Ev
  forceInsert : Option Bool
  instQs : Option (List Rec)
deriving DecidableEq, Repr

/-- A request body: either a single object or a list of objects
(`isinstance(request.DATA, list)`). -/
inductive ReqData where
  | single (it : Item)
  | list (items : List Item)
deriving DecidableEq, Repr

/-- Line 59 of `mixins.py`: `serializer.get_identity(item)` reads the
item's identity field. -/
def get_identity (it : Item) : Option Nat := it.id

/-- Python truthiness of an identity value (`if item_identity:`): absent
and zero identities are falsy. -/
def identityTruthy : Option Nat → Bool
  | none => false
  | some i => i != 0

/-- Fresh primary keys start past every key in the database (standing in
for the database's auto-increment). -/
def nextPk (db : List Rec) : Nat :=
  db.foldl (fun m r => max m r.pk) 0 + 1

/-- Modelled from the spec: the framework many-item serializer's save
(not part of this repository). With `allow_add_remove`, an item whose
truthy identity matches an instance of the serializer's instance set
updates that record in place; any other item is inserted as a new record
with a fresh primary key. The plain create serializer is the `instQs = []`
case, where every item is inserted. -/
def upsertOne (instQs : List Rec) (st : SaveSt) (it : Item) : SaveSt :=
  match get_identity it with
  | some i =>
    if identityTruthy (some i) && instQs.any (fun r => r.pk == i) then
      { st with
        db := st.db.map (fun r => if r.pk == i then { r with val := it.val } else r)
        objs := st.objs ++ [⟨i, it.val⟩] }
    else
      { db := st.db ++ [⟨st.next, it.val⟩], next := st.next + 1
        objs := st.objs ++ [⟨st.next, it.val⟩] }
  | none =>
    { db := st.db ++ [⟨st.next, it.val⟩], next := st.next + 1
      objs := st.objs ++ [⟨st.next, it.val⟩] }

/-- Lines 57-61 of `mixins.py`: walk the payload and append the truthy
identity of each item (`if item_identity: ids_list.append(...)`). -/
def collect_ids (items : List Item) : List Nat :=
  items.foldl
    (fun acc it =>
      match get_identity it with
      | some i => if identityTruthy (some i) then acc ++ [i] else acc
      | none => acc) []

/-- Modelled from the spec: `serializer.save` over the whole payload,
upserting against the instance set `q`, starting from the current
database with fresh keys past its maximum. -/
def bulkSave (q : List Rec) (db : List Rec) (items : List Item) : SaveSt :=
  items.foldl (upsertOne q) ⟨db, nextPk db, []⟩

/-- Lines 42-82 of `mixins.py`. `post_force_bulk` and `post_allow_update`
are the resolved view settings, `fq` is `filter_queryset`, `validItem`
is the framework's per-item validation (so `serializer.is_valid()` is
its conjunction over the payload), and `superCreate` is the opaque
result of the superclass's single-object `create`. -/
def create (post_force_bulk post_allow_update : Bool) (fq : Rec → Bool)
    (validItem : Item → Bool) (superCreate : CreateResult)
    (db : List Rec) (data : ReqData) : CreateResult :=
  let bulk := match data with | ReqData.list _ => true | ReqData.single _ => false
  if !bulk && !post_force_bulk then
    superCreate
  else
    let items := match data with | ReqData.list its => its | ReqData.single it => [it]
    let ids_list := collect_ids items
    let instance_qs := (db.filter fq).filter (fun r => ids_list.contains r.pk)
    let instQsUsed : Option (List Rec) :=
      if post_allow_update then some instance_qs else none
    let valid := items.all validItem
    if valid then
      let st := bulkSave (if post_allow_update then instance_qs else []) db items
      { status := 201
        body := Body.recs st.objs
        db := st.db
        trace := [Ev.isValid true] ++ (List.range items.length).map Ev.preSave
          ++ [Ev.preBulkSave, Ev.saveDb, Ev.postBulkSave]
          ++ (List.range st.objs.length).map Ev.postSave
        forceInsert := some (!post_allow_update)
        instQs := instQsUsed }
    else
      { status := 400
        body := Body.errors (items.map validItem)
        db := db
        trace := [Ev.isValid valid]
        forceInsert := none
        instQs := instQsUsed }

/-- A fixed stand-in for the superclass's single-object create result,
used by concrete witnesses. -/
def superStub : CreateResult :=
  { status := 0, body := Body.empty, db := [], trace := [], forceInsert := none
    instQs := none }

/-- The record a payload list leaves behind for an existing record: each
item whose identity equals the record's key overwrites its data field. -/
def updTo (items : List Item) (r : Rec) : Rec :=
  items.foldl (fun acc it => if it.id = some acc.pk then { acc with val := it.val } else acc) r

/-- The records a payload list inserts, numbering the identity-less
items with consecutive fresh primary keys. -/
def freshRecs : List Item → Nat → List Rec
  | [], _ => []
  | it :: rest, n =>
    match it.id with
    | none => ⟨n, it.val⟩ :: freshRecs rest (n + 1)
    | some _ => freshRecs rest n

/-! ### BulkUpdateModelMixin (`mixins.py` lines 85-147) -/

/-- Observable events of a bulk update request, in order: validation,
per-object `pre_save` hooks, the batch `pre_bulk_update` hook, the
persist (`serializer.save(force_update=True)`), the batch
`post_bulk_update` hook, and the per-object `post_save` hooks. -/
inductive UEv where
  | isValid (ok : Bool)
  | preSave (r : Rec)
  | preBulkUpdate
  | save
  | postBulkUpdate
  | postSave (r : Rec)
deriving DecidableEq, Repr

/-- The field-to-message mapping a Django `ValidationError` carries
(`err.message_dict`). -/
abbrev ErrMap := List (String × String)

/-- Modelled from the spec: the framework many-item update serializer
(not part of this repository) resolves each payload item to an existing
record of the given queryset by identity and applies the item's fields
to it; `serializer.object` is that list, absent when some item fails to
resolve. -/
def matchItems (qs : List Rec) (items : List Item) : Option (List Rec) :=
  items.mapM
    (fun it =>
      match it.id with
      | some i => (qs.find? (fun r => r.pk == i)).map (fun r => { r with val := it.val })
      | none => none)

/-- Lines 130-131 of `mixins.py`: run `pre_save` on each object in order,
stopping at the first `ValidationError`; returns the events emitted and
the error, if any. -/
def runPre (pre : Rec → Except ErrMap Unit) : List Rec → List UEv × Option ErrMap
  | [] => ([], none)
  | r :: rs =>
    match pre r with
    | Except.error e => ([UEv.preSave r], some e)
    | Except.ok _ =>
      let rest := runPre pre rs
      (UEv.preSave r :: rest.1, rest.2)

/-- Result of `BulkUpdateModelMixin.bulk_update`: HTTP status, body,
database after the request, and the event trace. -/
structure UpdateResult where
  status : Nat
  body : Body
  db : List Rec
  trace : List UEv
deriving DecidableEq, Repr

/-- Lines 119-143 of `mixins.py`. `fq` is `filter_queryset`, `validItem`
the framework's per-item validation, `pre_save` the view's per-object
pre-save hook (which may raise a `ValidationError`), and `partFlag` the
popped `partial` kwarg handed to the serializer. -/
def bulk_update (fq : Rec → Bool) (validItem : Item → Bool)
    (pre_save : Rec → Except ErrMap Unit) (db : List Rec) (items : List Item)
    (partFlag : Bool) : UpdateResult :=
  let qs := db.filter fq
  match matchItems qs items with
  | none => ⟨400, Body.errors (items.map validItem), db, [UEv.isValid false]⟩
  | some objs =>
    if items.all validItem then
      let pres := runPre pre_save objs
      match pres.2 with
      | some e => ⟨400, Body.errorMap e, db, UEv.isValid true :: pres.1⟩
      | none =>
        let db2 := objs.foldl
          (fun d o => d.map (fun r => if r.pk == o.pk then o else r)) db
        ⟨200, Body.recs objs, db2,
          UEv.isValid true :: (pres.1 ++ [UEv.preBulkUpdate, UEv.save, UEv.postBulkUpdate]
            ++ objs.map UEv.postSave)⟩
    else ⟨400, Body.errors (items.map validItem), db, [UEv.isValid false]⟩

/-- Lookup configuration of a view, as `get_object` consults it
(`lookup_url_kwarg`, `lookup_field`, and the deprecated `pk_url_kwarg`
and `slug_url_kwarg`). -/
structure LookupCfg where
  lookup_url_kwarg : Option String
  lookup_field : String
  pk_url_kwarg : String
  slug_url_kwarg : String
deriving DecidableEq, Repr

/-- Lines 96-112 of `mixins.py`: `get_object` returns the superclass's
result when any singular lookup key is present in the view's kwargs
(`lookup_url_kwarg or lookup_field`, `pk_url_kwarg`, `slug_url_kwarg`),
and nothing otherwise. `superGet` is the opaque superclass result. -/
def get_object (cfg : LookupCfg) (kwargs : List String) (superGet : Option Rec) :
    Option Rec :=
  if cfg.lookup_url_kwarg.getD cfg.lookup_field ∈ kwargs ∨ cfg.pk_url_kwarg ∈ kwargs ∨
      cfg.slug_url_kwarg ∈ kwargs then
    superGet
  else
    none

/-- The identities the create path collects from a payload: the truthy
(present and nonzero) identity of each item, in payload order. -/
def idsTruthy (items : List Item) : List Nat :=
  items.filterMap
    (fun it =>
      match it.id with
      | some i => if i ≠ 0 then some i else none
      | none => none)

theorem foldl_delete_object (l : List Rec) :
    ∀ db : List Rec,
      l.foldl delete_object db = db.filter (fun r => l.all (fun o => r.pk != o.pk)) := by
  induction l with
  | nil =>
    intro db
    simp [List.foldl]
  | cons o l ih =>
    intro db
    simp only [List.foldl_cons, ih, delete_object, List.filter_filter]
    apply List.filter_congr
    intro r _
    simp [List.all_cons, Bool.and_comm]

theorem nodup_pk_inj {db : List Rec} (h : (db.map Rec.pk).Nodup) :
    ∀ a ∈ db, ∀ b ∈ db, a.pk = b.pk → a = b := by
  intro a ha b hb hpk
  exact List.inj_on_of_nodup_map h ha hb hpk

theorem filterMap_guard_all_false {α β : Type} (g : α → Bool) (f : α → β) :
    ∀ l : List α, l.all (fun t => !g t) = true →
      l.filterMap (fun x => if g x then some (f x) else none) = [] := by
  intro l
  induction l with
  | nil => intro _; rfl
  | cons t ts ih =>
    intro h
    simp only [List.all_cons, Bool.and_eq_true, Bool.not_eq_true'] at h
    simp [List.filterMap_cons, h.1, ih (by simp [List.all_eq_true] at h ⊢; exact h.2)]

theorem destroy_all_pointwise (db : List Rec) (dl : List Nat) (fq : Rec → Bool)
    (hnodup : (db.map Rec.pk).Nodup) (r : Rec) (hr : r ∈ db) :
    (((db.filter fq).filter (fun x => dl.contains x.pk)).all (fun o => r.pk != o.pk))
      = !(fq r && dl.contains r.pk) := by
  cases hfq : fq r with
  | false =>
    simp only [hfq, Bool.false_and, Bool.not_false]
    rw [List.all_eq_true]
    intro o ho
    rw [List.mem_filter] at ho
    rcases ho with ⟨ho1, ho2⟩
    rw [List.mem_filter] at ho1
    rcases ho1 with ⟨hodb, hofq⟩
    rw [bne_iff_ne]
    intro hpk
    have heq := nodup_pk_inj hnodup r hr o hodb hpk
    subst heq
    rw [hfq] at hofq
    exact absurd hofq (by decide)
  | true =>
    cases hin : dl.contains r.pk with
    | false =>
      simp only [hfq, hin, Bool.and_false, Bool.not_false]
      rw [List.all_eq_true]
      intro o ho
      rw [List.mem_filter] at ho
      rcases ho with ⟨ho1, ho2⟩
      rw [List.mem_filter] at ho1
      rcases ho1 with ⟨hodb, hofq⟩
      rw [bne_iff_ne]
      intro hpk
      have heq := nodup_pk_inj hnodup r hr o hodb hpk
      subst heq
      rw [hin] at ho2
      exact absurd ho2 (by decide)
    | true =>
      simp only [hfq, hin, Bool.and_self, Bool.not_true]
      have hrF : r ∈ (db.filter fq).filter (fun x => dl.contains x.pk) :=
        List.mem_filter.mpr ⟨List.mem_filter.mpr ⟨hr, hfq⟩, hin⟩
      cases hall : ((db.filter fq).filter (fun x => dl.contains x.pk)).all
          (fun o => r.pk != o.pk) with
      | false => rfl
      | true =>
        rw [List.all_eq_true] at hall
        have := hall r hrF
        simp at this

/-- C1: destroying with `idList=1,2,3` deletes exactly the records of the
filtered queryset whose primary key is in `{1, 2, 3}`, deletes no other
record, and answers 204 with an empty body. -/
theorem destroy_idList_one_two_three (fq : Rec → Bool) (db : List Rec)
    (hnodup : (db.map Rec.pk).Nodup) :
    destroy fq db (some "1,2,3") =
      ⟨204, Body.empty, db.filter (fun r => !(fq r && [1, 2, 3].contains r.pk))⟩ := by
  have hstep : destroy fq db (some "1,2,3") =
      ⟨204, Body.empty,
        ((db.filter fq).filter
          (fun r => (parseIdList "1,2,3").contains r.pk)).foldl delete_object db⟩ := rfl
  rw [hstep]
  have hp : parseIdList "1,2,3" = [1, 2, 3] := by decide
  rw [hp, foldl_delete_object]
  congr 1
  apply List.filter_congr
  intro r hr
  exact destroy_all_pointwise db [1, 2, 3] fq hnodup r hr

/-- Witness for C1 at a concrete database. -/
theorem destroy_idList_one_two_three_witness :
    destroy (fun _ => true) [⟨1, 7⟩, ⟨4, 8⟩] (some "1,2,3") =
      ⟨204, Body.empty, [⟨4, 8⟩]⟩ := by
  rw [destroy_idList_one_two_three (fun _ => true) [⟨1, 7⟩, ⟨4, 8⟩] (by decide)]
  decide

/-- C2: a destroy request without the `idList` query parameter answers
400 with an empty body and deletes nothing. -/
theorem destroy_missing_idList (fq : Rec → Bool) (db : List Rec) :
    destroy fq db none = ⟨400, Body.empty, db⟩ := rfl

/-- C8: the destroy path parses `idList` exactly as described: split on
commas, strip whitespace, discard empty tokens, silently drop every
non-numeric token, and convert only the remaining numeric tokens to the
integers used for the deletion filter. -/
theorem parseIdList_matches_spec (v : String) : parseIdList v = parseIdListSpec v := by
  unfold parseIdList parseIdListSpec
  induction ((splitCommaAux v.data []).map stripChars) with
  | nil => rfl
  | cons t ts ih =>
    cases h : t.isEmpty with
    | true =>
      have ht : t = [] := by
        cases t with
        | nil => rfl
        | cons a as => exact absurd h (by simp [List.isEmpty])
      subst ht
      simpa [List.filter_cons, List.filterMap_cons] using ih
    | false =>
      have ht : t ≠ [] := by
        intro he
        rw [he] at h
        exact absurd h (by decide)
      cases hn : isnumericChars t with
      | true => simpa [List.filter_cons, List.filterMap_cons, h, hn, ht] using ih
      | false => simpa [List.filter_cons, List.filterMap_cons, h, hn, ht] using ih

/-- C10: a destroy request whose `idList` is present but holds no numeric
token (all tokens empty or non-numeric) answers 204 and deletes nothing. -/
theorem destroy_idList_no_numeric (fq : Rec → Bool) (db : List Rec) (v : String)
    (h : (((splitCommaAux v.data []).map stripChars).filter
        (fun x => !x.isEmpty)).all (fun t => !isnumericChars t) = true) :
    destroy fq db (some v) = ⟨204, Body.empty, db⟩ := by
  have hp : parseIdList v = [] := filterMap_guard_all_false isnumericChars charsToNat _ h
  have hstep : destroy fq db (some v) =
      ⟨204, Body.empty,
        ((db.filter fq).filter
          (fun r => (parseIdList v).contains r.pk)).foldl delete_object db⟩ := rfl
  rw [hstep, hp]
  simp [List.contains]

/-- Witness for C10: `idList=a, ,x7` deletes nothing and answers 204. -/
theorem destroy_idList_no_numeric_witness :
    destroy (fun _ => true) [⟨1, 7⟩] (some "a, ,x7") = ⟨204, Body.empty, [⟨1, 7⟩]⟩ :=
  destroy_idList_no_numeric (fun _ => true) [⟨1, 7⟩] "a, ,x7" (by decide)

/-- C5: a single (non-list) payload with `post_force_bulk=false` is
handed to the superclass's standard single-object create, and the mixin
adds nothing to its result. -/
theorem create_single_nonforced_delegates (pau : Bool) (fq : Rec → Bool)
    (validItem : Item → Bool) (sc : CreateResult) (db : List Rec) (it : Item) :
    create false pau fq validItem sc db (ReqData.single it) = sc := rfl

/-- C3: on a list payload the create path validates every item of the
payload (the recorded validity is the conjunction of the per-item
validations, and it is the first event of the request); when validation
fails, the response is 400 with the serializer's errors, the database is
unchanged and `serializer.save` is never reached. -/
theorem create_validates_all_before_persist (pfb pau : Bool) (fq : Rec → Bool)
    (validItem : Item → Bool) (sc : CreateResult) (db : List Rec) (items : List Item) :
    ((create pfb pau fq validItem sc db (ReqData.list items)).trace.head?
        = some (Ev.isValid (items.all validItem))) ∧
    (items.all validItem = false →
      (create pfb pau fq validItem sc db (ReqData.list items)).status = 400 ∧
      (create pfb pau fq validItem sc db (ReqData.list items)).body
          = Body.errors (items.map validItem) ∧
      (create pfb pau fq validItem sc db (ReqData.list items)).db = db ∧
      (create pfb pau fq validItem sc db (ReqData.list items)).forceInsert = none ∧
      Ev.saveDb ∉ (create pfb pau fq validItem sc db (ReqData.list items)).trace) := by
  cases hv : items.all validItem with
  | true =>
    constructor
    · simp [create, hv]
    · intro h
      exact absurd h (by decide)
  | false =>
    constructor
    · simp [create, hv]
    · intro _
      refine ⟨by simp [create, hv], by simp [create, hv], by simp [create, hv],
        by simp [create, hv], ?_⟩
      simp [create, hv]

/-- Witness for C3: a payload with an invalid item is rejected as a
whole with 400, persisting nothing. -/
theorem create_validates_all_before_persist_witness :
    (create false false (fun _ => true) (fun it => it.val != 0) superStub [⟨1, 1⟩]
        (ReqData.list [⟨none, 0⟩, ⟨none, 3⟩])).status = 400 ∧
    (create false false (fun _ => true) (fun it => it.val != 0) superStub [⟨1, 1⟩]
        (ReqData.list [⟨none, 0⟩, ⟨none, 3⟩])).db = [⟨1, 1⟩] ∧
    Ev.saveDb ∉ (create false false (fun _ => true) (fun it => it.val != 0) superStub [⟨1, 1⟩]
        (ReqData.list [⟨none, 0⟩, ⟨none, 3⟩])).trace :=
  have h := (create_validates_all_before_persist false false (fun _ => true)
      (fun it => it.val != 0) superStub [⟨1, 1⟩] [⟨none, 0⟩, ⟨none, 3⟩]).2 (by decide)
  ⟨h.1, h.2.2.1, h.2.2.2.2⟩

theorem upsert_objs_length (q : List Rec) (items : List Item) :
    ∀ st : SaveSt, (items.foldl (upsertOne q) st).objs.length = st.objs.length + items.length := by
  induction items with
  | nil => intro st; simp
  | cons it rest ih =>
    intro st
    rw [List.foldl_cons, ih]
    have hone : (upsertOne q st it).objs.length = st.objs.length + 1 := by
      rcases it with ⟨hid, v⟩
      cases hid with
      | none => simp [upsertOne, get_identity]
      | some i =>
        simp only [upsertOne, get_identity]
        split <;> simp
    rw [hone]
    simp only [List.length_cons]
    omega

theorem bulkSave_objs_length (q db : List Rec) (items : List Item) :
    (bulkSave q db items).objs.length = items.length := by
  unfold bulkSave
  rw [upsert_objs_length]
  simp

/-- C7 (amended): in every successful bulk create the response is 201
with the serialized objects, and the hooks fire in this order: the
validation of the whole payload, the per-item `pre_save` hooks, the
batch `pre_bulk_save` hook, the persist, the batch `post_bulk_save`
hook, and only then the per-item `post_save` hooks. -/
theorem create_success_hook_order (pfb pau : Bool) (fq : Rec → Bool)
    (validItem : Item → Bool) (sc : CreateResult) (db : List Rec) (items : List Item)
    (hvalid : items.all validItem = true) :
    (create pfb pau fq validItem sc db (ReqData.list items)).status = 201 ∧
    (∃ rs : List Rec,
      (create pfb pau fq validItem sc db (ReqData.list items)).body = Body.recs rs ∧
      rs.length = items.length) ∧
    (create pfb pau fq validItem sc db (ReqData.list items)).trace =
      [Ev.isValid true] ++ (List.range items.length).map Ev.preSave
        ++ [Ev.preBulkSave, Ev.saveDb, Ev.postBulkSave]
        ++ (List.range items.length).map Ev.postSave := by
  refine ⟨by simp [create, hvalid], ?_, ?_⟩
  · simp only [create, hvalid]
    exact ⟨_, rfl, by rw [bulkSave_objs_length]⟩
  · simp only [create, hvalid]
    simp only [bulkSave_objs_length]
    simp

/-- Witness for C7's amended statement at a one-item payload. -/
theorem create_success_hook_order_witness :
    (create false false (fun _ => true) (fun _ => true) superStub []
        (ReqData.list [⟨none, 5⟩])).status = 201 ∧
    (∃ rs : List Rec,
      (create false false (fun _ => true) (fun _ => true) superStub []
          (ReqData.list [⟨none, 5⟩])).body = Body.recs rs ∧
      rs.length = 1) ∧
    (create false false (fun _ => true) (fun _ => true) superStub []
        (ReqData.list [⟨none, 5⟩])).trace =
      [Ev.isValid true] ++ (List.range 1).map Ev.preSave
        ++ [Ev.preBulkSave, Ev.saveDb, Ev.postBulkSave]
        ++ (List.range 1).map Ev.postSave :=
  create_success_hook_order false false (fun _ => true) (fun _ => true) superStub []
    [⟨none, 5⟩] (by decide)

/-- C7 (counterexample to the claim as stated): in this successful bulk
create the batch `post_bulk_save` hook fires strictly before the
per-item `post_save` hook, not after it. -/
theorem create_post_save_not_before_post_bulk_save :
    Ev.postBulkSave ∈ (create false false (fun _ => true) (fun _ => true) superStub []
        (ReqData.list [⟨none, 5⟩])).trace ∧
    Ev.postSave 0 ∈ (create false false (fun _ => true) (fun _ => true) superStub []
        (ReqData.list [⟨none, 5⟩])).trace ∧
    (create false false (fun _ => true) (fun _ => true) superStub []
        (ReqData.list [⟨none, 5⟩])).trace.findIdx (fun e => e == Ev.postBulkSave)
      < (create false false (fun _ => true) (fun _ => true) superStub []
        (ReqData.list [⟨none, 5⟩])).trace.findIdx (fun e => e == Ev.postSave 0) := by
  decide

theorem foldl_max_init (db : List Rec) :
    ∀ acc : Nat, acc ≤ db.foldl (fun m r => max m r.pk) acc := by
  induction db with
  | nil => intro acc; simp
  | cons r rest ih =>
    intro acc
    rw [List.foldl_cons]
    exact le_trans (le_max_left acc r.pk) (ih (max acc r.pk))

theorem pk_le_foldl_max (db : List Rec) :
    ∀ (acc : Nat) (r : Rec), r ∈ db → r.pk ≤ db.foldl (fun m x => max m x.pk) acc := by
  induction db with
  | nil => intro acc r hr; cases hr
  | cons x rest ih =>
    intro acc r hr
    rw [List.foldl_cons]
    rcases List.mem_cons.mp hr with hr | hr
    · subst hr
      exact le_trans (le_max_right acc r.pk) (foldl_max_init rest (max acc r.pk))
    · exact ih (max acc x.pk) r hr

theorem pk_lt_nextPk (db : List Rec) (r : Rec) (hr : r ∈ db) : r.pk < nextPk db := by
  unfold nextPk
  exact Nat.lt_succ_of_le (pk_le_foldl_max db 0 r hr)

theorem updTo_pk (items : List Item) : ∀ r : Rec, (updTo items r).pk = r.pk := by
  induction items with
  | nil => intro r; rfl
  | cons it rest ih =>
    intro r
    show (updTo rest (if it.id = some r.pk then { r with val := it.val } else r)).pk = r.pk
    rw [ih]
    split <;> rfl

theorem updTo_not_mentioned (items : List Item) : ∀ r : Rec,
    (∀ it ∈ items, it.id ≠ some r.pk) → updTo items r = r := by
  induction items with
  | nil => intro r _; rfl
  | cons it rest ih =>
    intro r h
    show updTo rest (if it.id = some r.pk then { r with val := it.val } else r) = r
    rw [if_neg (h it (List.mem_cons_self it rest))]
    exact ih r (fun x hx => h x (List.mem_cons_of_mem it hx))

theorem collect_ids_aux (items : List Item) : ∀ acc : List Nat,
    items.foldl
      (fun acc it =>
        match get_identity it with
        | some i => if identityTruthy (some i) then acc ++ [i] else acc
        | none => acc) acc
    = acc ++ idsTruthy items := by
  induction items with
  | nil => intro acc; simp [idsTruthy]
  | cons it rest ih =>
    intro acc
    rw [List.foldl_cons, ih]
    rcases it with ⟨hid, v⟩
    cases hid with
    | none => simp [idsTruthy, get_identity, List.filterMap_cons]
    | some i =>
      by_cases h0 : i = 0
      · subst h0
        simp [idsTruthy, get_identity, identityTruthy, List.filterMap_cons]
      · simp [idsTruthy, get_identity, identityTruthy, h0, List.filterMap_cons,
          List.append_assoc]

theorem collect_ids_eq (items : List Item) : collect_ids items = idsTruthy items := by
  unfold collect_ids
  rw [collect_ids_aux]
  simp

theorem idsTruthy_mem (items : List Item) (p : Nat) :
    p ∈ idsTruthy items ↔ ∃ it ∈ items, it.id = some p ∧ p ≠ 0 := by
  unfold idsTruthy
  rw [List.mem_filterMap]
  constructor
  · rintro ⟨it, hit, hf⟩
    cases hid : it.id with
    | none => rw [hid] at hf; cases hf
    | some i =>
      rw [hid] at hf
      have hf2 : (if i ≠ 0 then some i else none) = some p := hf
      by_cases h0 : i = 0
      · rw [if_neg (by simp [h0])] at hf2
        cases hf2
      · rw [if_pos h0] at hf2
        cases hf2
        exact ⟨it, hit, hid, h0⟩
  · rintro ⟨it, hit, hid, h0⟩
    refine ⟨it, hit, ?_⟩
    rw [hid]
    show (if p ≠ 0 then some p else none) = some p
    rw [if_pos h0]

theorem upsert_structure (q : List Rec) (items : List Item) :
    ∀ (dbp : List Rec) (next : Nat) (objs : List Rec),
    (∀ r ∈ dbp, r.pk < next) →
    (∀ it ∈ items, ∀ i : Nat, it.id = some i →
        i ≠ 0 ∧ i < next ∧ q.any (fun r => r.pk == i) = true) →
    (items.foldl (upsertOne q) ⟨dbp, next, objs⟩).db
      = dbp.map (updTo items) ++ freshRecs items next := by
  induction items with
  | nil =>
    intro dbp next objs h1 h2
    have hupd : updTo ([] : List Item) = fun r => r := rfl
    show dbp = dbp.map (updTo []) ++ freshRecs [] next
    rw [hupd]
    simp [freshRecs]
  | cons it rest ih =>
    intro dbp next objs h1 h2
    rw [List.foldl_cons]
    cases hid : it.id with
    | some i =>
      have hi := h2 it (List.mem_cons_self it rest) i hid
      have hcond : (identityTruthy (some i) && q.any (fun r => r.pk == i)) = true := by
        simp [identityTruthy, hi.1, hi.2.2]
      have hstep : upsertOne q ⟨dbp, next, objs⟩ it =
          ⟨dbp.map (fun r => if r.pk == i then { r with val := it.val } else r), next,
            objs ++ [⟨i, it.val⟩]⟩ := by
        unfold upsertOne
        simp only [get_identity, hid, hcond, if_true]
      rw [hstep, ih _ next _ ?_ ?_]
      · have hmaps : ∀ r : Rec,
            updTo rest (if r.pk == i then { r with val := it.val } else r)
              = updTo (it :: rest) r := by
          intro r
          show _ = updTo rest (if it.id = some r.pk then { r with val := it.val } else r)
          rw [hid]
          by_cases hpk : r.pk = i
          · subst hpk
            rw [if_pos (by simp), if_pos rfl]
          · rw [if_neg (by simp [hpk]), if_neg (by simp [Ne.symm hpk])]
        rw [List.map_map]
        have : (updTo rest ∘ fun r => if r.pk == i then { r with val := it.val } else r)
            = updTo (it :: rest) := funext hmaps
        rw [this]
        have hfresh : freshRecs (it :: rest) next = freshRecs rest next := by
          simp [freshRecs, hid]
        rw [hfresh]
      · intro r hr
        rcases List.mem_map.mp hr with ⟨r0, hr0, heq⟩
        have hpk : r.pk = r0.pk := by
          rw [← heq]
          split <;> rfl
        rw [hpk]
        exact h1 r0 hr0
      · intro it2 hit2 i2 hid2
        exact h2 it2 (List.mem_cons_of_mem it hit2) i2 hid2
    | none =>
      have hstep : upsertOne q ⟨dbp, next, objs⟩ it =
          ⟨dbp ++ [⟨next, it.val⟩], next + 1, objs ++ [⟨next, it.val⟩]⟩ := by
        unfold upsertOne
        simp only [get_identity, hid]
      rw [hstep, ih _ (next + 1) _ ?_ ?_]
      · rw [List.map_append]
        have hnew : (([⟨next, it.val⟩] : List Rec).map (updTo rest)) = [⟨next, it.val⟩] := by
          simp only [List.map_cons, List.map_nil]
          rw [updTo_not_mentioned rest ⟨next, it.val⟩ ?_]
          intro it2 hit2 hcontra
          rcases hid2 : it2.id with _ | i2
          · rw [hid2] at hcontra; cases hcontra
          · rw [hid2] at hcontra
            have hi2 := h2 it2 (List.mem_cons_of_mem it hit2) i2 hid2
            have : i2 = next := by
              have := hcontra
              simp at this
              exact this
            omega
        rw [hnew]
        have hupd : dbp.map (updTo rest) = dbp.map (updTo (it :: rest)) := by
          apply List.map_congr_left
          intro r hr
          show updTo rest r = _
          have : updTo (it :: rest) r
              = updTo rest (if it.id = some r.pk then { r with val := it.val } else r) := rfl
          rw [this, hid, if_neg (by simp)]
        rw [hupd]
        have hfresh : freshRecs (it :: rest) next = ⟨next, it.val⟩ :: freshRecs rest (next + 1) := by
          simp [freshRecs, hid]
        rw [hfresh]
        simp
      · intro r hr
        rcases List.mem_append.mp hr with hr | hr
        · exact lt_trans (h1 r hr) (Nat.lt_succ_self next)
        · rcases List.mem_singleton.mp hr with rfl
          exact Nat.lt_succ_self next
      · intro it2 hit2 i2 hid2
        have h := h2 it2 (List.mem_cons_of_mem it hit2) i2 hid2
        exact ⟨h.1, lt_trans h.2.1 (Nat.lt_succ_self next), h.2.2⟩

theorem bulkSave_db (q db : List Rec) (items : List Item)
    (h2 : ∀ it ∈ items, ∀ i : Nat, it.id = some i →
        i ≠ 0 ∧ i < nextPk db ∧ q.any (fun r => r.pk == i) = true) :
    (bulkSave q db items).db = db.map (updTo items) ++ freshRecs items (nextPk db) := by
  unfold bulkSave
  exact upsert_structure q items db (nextPk db) [] (fun r hr => pk_lt_nextPk db r hr) h2

/-- C4: on a valid bulk create with `post_allow_update=true` whose
payload identities are nonzero and all exist in the filtered queryset:
the serializer is rebuilt against exactly the records of the filtered
queryset whose primary key appears among the payload identities,
`serializer.save` is called without `force_insert`, the response is 201,
and afterwards the identified records are updated in place (no duplicate
row is inserted for them) while exactly the identity-less items are
inserted as freshly keyed records. -/
theorem create_allow_update_upserts (pfb : Bool) (fq : Rec → Bool)
    (validItem : Item → Bool) (sc : CreateResult) (db : List Rec) (items : List Item)
    (hvalid : items.all validItem = true)
    (hids : items.all
        (fun it =>
          match it.id with
          | some i => decide (i ≠ 0) && (db.filter fq).any (fun r => r.pk == i)
          | none => true) = true) :
    (create pfb true fq validItem sc db (ReqData.list items)).instQs
        = some ((db.filter fq).filter (fun r => items.any (fun it => it.id == some r.pk))) ∧
    (create pfb true fq validItem sc db (ReqData.list items)).forceInsert = some false ∧
    (create pfb true fq validItem sc db (ReqData.list items)).status = 201 ∧
    (create pfb true fq validItem sc db (ReqData.list items)).db
        = db.map (updTo items) ++ freshRecs items (nextPk db) := by
  have hids' : ∀ it ∈ items, ∀ i : Nat, it.id = some i →
      i ≠ 0 ∧ ∃ r, r ∈ db.filter fq ∧ r.pk = i := by
    intro it hit i hi
    have h := List.all_eq_true.mp hids it hit
    rw [hi] at h
    have h2 : (decide (i ≠ 0) && (db.filter fq).any (fun r => r.pk == i)) = true := h
    rw [Bool.and_eq_true] at h2
    refine ⟨by simpa using h2.1, ?_⟩
    rcases List.any_eq_true.mp h2.2 with ⟨r, hr, hbeq⟩
    exact ⟨r, hr, by simpa using hbeq⟩
  have hfilter : (db.filter fq).filter (fun r => (collect_ids items).contains r.pk)
      = (db.filter fq).filter (fun r => items.any (fun it => it.id == some r.pk)) := by
    apply List.filter_congr
    intro r hr
    rw [collect_ids_eq]
    cases hany : items.any (fun it => it.id == some r.pk) with
    | true =>
      rcases List.any_eq_true.mp hany with ⟨it, hit, hbeq⟩
      have hid : it.id = some r.pk := by simpa using hbeq
      have h0 : r.pk ≠ 0 := (hids' it hit r.pk hid).1
      have hmem : r.pk ∈ idsTruthy items := (idsTruthy_mem items r.pk).mpr ⟨it, hit, hid, h0⟩
      simpa using hmem
    | false =>
      cases hc : (idsTruthy items).contains r.pk with
      | false => rfl
      | true =>
        have hmem : r.pk ∈ idsTruthy items := by simpa using hc
        rcases (idsTruthy_mem items r.pk).mp hmem with ⟨it, hit, hid, h0⟩
        have hpit : (it.id == some r.pk) = true := by
          rw [hid]
          exact beq_self_eq_true _
        have hcontra : items.any (fun it => it.id == some r.pk) = true :=
          List.any_eq_true.mpr ⟨it, hit, hpit⟩
        rw [hany] at hcontra
        exact absurd hcontra (by decide)
  refine ⟨?_, by simp [create, hvalid], by simp [create, hvalid], ?_⟩
  · have hproj : (create pfb true fq validItem sc db (ReqData.list items)).instQs
        = some ((db.filter fq).filter (fun r => (collect_ids items).contains r.pk)) := by
      simp [create, hvalid]
    rw [hproj, hfilter]
  · have hproj : (create pfb true fq validItem sc db (ReqData.list items)).db
        = (bulkSave ((db.filter fq).filter (fun r => (collect_ids items).contains r.pk))
            db items).db := by
      simp [create, hvalid]
    rw [hproj, bulkSave_db]
    intro it hit i hid
    rcases hids' it hit i hid with ⟨h0, r, hrfq, hrpk⟩
    refine ⟨h0, ?_, ?_⟩
    · have hrdb : r ∈ db := (List.mem_filter.mp hrfq).1
      rw [← hrpk]
      exact pk_lt_nextPk db r hrdb
    · apply List.any_eq_true.mpr
      refine ⟨r, ?_, by simp [hrpk]⟩
      apply List.mem_filter.mpr
      refine ⟨hrfq, ?_⟩
      rw [collect_ids_eq]
      have hmem : r.pk ∈ idsTruthy items :=
        (idsTruthy_mem items r.pk).mpr
          ⟨it, hit, by rw [hrpk]; exact hid, by rw [hrpk]; exact h0⟩
      simpa using hmem

/-- Witness for C4: one identified item updates record 1 in place, one
identity-less item is inserted with the fresh key 3. -/
theorem create_allow_update_upserts_witness :
    (create false true (fun _ => true) (fun _ => true) superStub [⟨1, 10⟩, ⟨2, 20⟩]
        (ReqData.list [⟨some 1, 11⟩, ⟨none, 30⟩])).instQs = some [⟨1, 10⟩] ∧
    (create false true (fun _ => true) (fun _ => true) superStub [⟨1, 10⟩, ⟨2, 20⟩]
        (ReqData.list [⟨some 1, 11⟩, ⟨none, 30⟩])).forceInsert = some false ∧
    (create false true (fun _ => true) (fun _ => true) superStub [⟨1, 10⟩, ⟨2, 20⟩]
        (ReqData.list [⟨some 1, 11⟩, ⟨none, 30⟩])).status = 201 ∧
    (create false true (fun _ => true) (fun _ => true) superStub [⟨1, 10⟩, ⟨2, 20⟩]
        (ReqData.list [⟨some 1, 11⟩, ⟨none, 30⟩])).db = [⟨1, 11⟩, ⟨2, 20⟩, ⟨3, 30⟩] := by
  have h := create_allow_update_upserts false (fun _ => true) (fun _ => true) superStub
    [⟨1, 10⟩, ⟨2, 20⟩] [⟨some 1, 11⟩, ⟨none, 30⟩] (by decide) (by decide)
  refine ⟨?_, h.2.1, h.2.2.1, ?_⟩
  · rw [h.1]
    decide
  · rw [h.2.2.2]
    decide

theorem runPre_events (pre : Rec → Except ErrMap Unit) :
    ∀ objs : List Rec, ∀ e ∈ (runPre pre objs).1, ∃ r : Rec, e = UEv.preSave r := by
  intro objs
  induction objs with
  | nil => intro e he; cases he
  | cons r rs ih =>
    intro e he
    cases hp : pre r with
    | error err =>
      simp only [runPre, hp] at he
      rcases List.mem_singleton.mp he with rfl
      exact ⟨r, rfl⟩
    | ok u =>
      simp only [runPre, hp] at he
      rcases List.mem_cons.mp he with rfl | he
      · exact ⟨r, rfl⟩
      · exact ih e he

/-- C6: when a bulk update passes serializer validation but the per-item
`pre_save` hook raises a model `ValidationError`, the response is 400
carrying the error's field-to-message mapping, `serializer.save` is
never reached and the database is unchanged. -/
theorem bulk_update_pre_save_error (fq : Rec → Bool) (validItem : Item → Bool)
    (pre : Rec → Except ErrMap Unit) (db : List Rec) (items : List Item) (pf : Bool)
    (objs : List Rec) (e : ErrMap)
    (hmatch : matchItems (db.filter fq) items = some objs)
    (hvalid : items.all validItem = true)
    (hpre : (runPre pre objs).2 = some e) :
    (bulk_update fq validItem pre db items pf).status = 400 ∧
    (bulk_update fq validItem pre db items pf).body = Body.errorMap e ∧
    (bulk_update fq validItem pre db items pf).db = db ∧
    UEv.save ∉ (bulk_update fq validItem pre db items pf).trace := by
  have hred : bulk_update fq validItem pre db items pf
      = ⟨400, Body.errorMap e, db, UEv.isValid true :: (runPre pre objs).1⟩ := by
    simp only [bulk_update]
    rw [hmatch]
    simp only [hvalid, if_true]
    rw [hpre]
  rw [hred]
  refine ⟨rfl, rfl, rfl, ?_⟩
  intro hmem
  rcases List.mem_cons.mp hmem with h | h
  · cases h
  · rcases runPre_events pre objs UEv.save h with ⟨r, hr⟩
    cases hr

/-- Witness for C6: a `pre_save` hook that rejects its object turns a
valid one-item bulk update into a 400 with the error mapping, deleting
and saving nothing. -/
theorem bulk_update_pre_save_error_witness :
    (bulk_update (fun _ => true) (fun _ => true)
        (fun _ => Except.error [("name", "invalid")]) [⟨1, 0⟩] [⟨some 1, 5⟩] false).status
        = 400 ∧
    (bulk_update (fun _ => true) (fun _ => true)
        (fun _ => Except.error [("name", "invalid")]) [⟨1, 0⟩] [⟨some 1, 5⟩] false).body
        = Body.errorMap [("name", "invalid")] ∧
    (bulk_update (fun _ => true) (fun _ => true)
        (fun _ => Except.error [("name", "invalid")]) [⟨1, 0⟩] [⟨some 1, 5⟩] false).db
        = [⟨1, 0⟩] ∧
    UEv.save ∉ (bulk_update (fun _ => true) (fun _ => true)
        (fun _ => Except.error [("name", "invalid")]) [⟨1, 0⟩] [⟨some 1, 5⟩] false).trace :=
  bulk_update_pre_save_error (fun _ => true) (fun _ => true)
    (fun _ => Except.error [("name", "invalid")]) [⟨1, 0⟩] [⟨some 1, 5⟩] false
    [⟨1, 5⟩] [("name", "invalid")] rfl rfl rfl

/-- C9: `get_object` returns nothing when no singular lookup key
(`lookup_url_kwarg or lookup_field`, `pk_url_kwarg`, `slug_url_kwarg`)
is present in the view's kwargs, and delegates to the superclass's
`get_object` when any of them is present. -/
theorem get_object_bulk (cfg : LookupCfg) (kwargs : List String) (sg : Option Rec) :
    ((cfg.lookup_url_kwarg.getD cfg.lookup_field ∉ kwargs ∧ cfg.pk_url_kwarg ∉ kwargs ∧
        cfg.slug_url_kwarg ∉ kwargs) →
      get_object cfg kwargs sg = none) ∧
    ((cfg.lookup_url_kwarg.getD cfg.lookup_field ∈ kwargs ∨ cfg.pk_url_kwarg ∈ kwargs ∨
        cfg.slug_url_kwarg ∈ kwargs) →
      get_object cfg kwargs sg = sg) := by
  unfold get_object
  constructor
  · rintro ⟨h1, h2, h3⟩
    have hn : ¬(cfg.lookup_url_kwarg.getD cfg.lookup_field ∈ kwargs ∨
        cfg.pk_url_kwarg ∈ kwargs ∨ cfg.slug_url_kwarg ∈ kwargs) := by
      rintro (h | h | h)
      exacts [h1 h, h2 h, h3 h]
    rw [if_neg hn]
  · intro h
    rw [if_pos h]

/-- Witness for C9: no lookup key in kwargs yields nothing; a present
`pk` key yields the superclass result. -/
theorem get_object_bulk_witness :
    get_object ⟨none, "pk", "pk", "slug"⟩ [] (some ⟨1, 2⟩) = none ∧
    get_object ⟨none, "pk", "pk", "slug"⟩ ["pk"] (some ⟨1, 2⟩) = some ⟨1, 2⟩ :=
  ⟨(get_object_bulk ⟨none, "pk", "pk", "slug"⟩ [] (some ⟨1, 2⟩)).1
      (by refine ⟨?_, ?_, ?_⟩ <;> simp),
    (get_object_bulk ⟨none, "pk", "pk", "slug"⟩ ["pk"] (some ⟨1, 2⟩)).2
      (by left; simp)⟩

end RFBulk
